import Mathlib

/-!
Shallow embedding of the QR error-correction tester single-page application
(src/App.tsx of the shmokmt/qrcode repository) together with proofs about its
permalink codec, mask compositor geometry, verification classifier, effect
pipeline and error handling.

Modelling conventions:
* TypeScript numbers are modelled as exact rationals; IEEE-754 double rounding
  is not modelled.  All numeric state stored by the application (mask option
  fields) is integer valued (range inputs with integer steps, and parseNumber
  rounds), so MaskOptions fields are embedded as integers.
* Browser APIs used by the code (URLSearchParams, canvas 2D context,
  String.prototype.trim, Number coercion) are modelled faithfully from their
  WHATWG / ECMAScript specifications, operating on Lean strings (well-formed
  Unicode scalar sequences).
* The QR encoding and decoding libraries (qrcode, jsQR) are opaque
  capabilities; they enter the model as parameters.
-/

/-- Error-correction levels of the type ErrorLevel in App.tsx. -/
inductive ErrorLevel where
  | L
  | M
  | Q
  | H
  deriving DecidableEq

/-- Decode verification outcome, the type DecodeStatus in App.tsx. -/
inductive DecodeStatus where
  | untested
  | success
  | failed
  deriving DecidableEq

/-- QR generation options, the type QrOptions in App.tsx. -/
structure QrOptions where
  errorLevel : ErrorLevel
  deriving DecidableEq

/-- Occlusion mask options, the type MaskOptions in App.tsx.  The TypeScript
fields have type number; every value the application ever stores in them is an
integer (the sliders use integer steps and parseNumber rounds), so the fields
are embedded as integers. -/
structure MaskOptions where
  sizePercent : ℤ
  centerXPercent : ℤ
  centerYPercent : ℤ
  opacityPercent : ℤ
  deriving DecidableEq

/-- Full shareable configuration, the type PermalinkState in App.tsx. -/
structure PermalinkState where
  text : String
  options : QrOptions
  maskOptions : MaskOptions
  deriving DecidableEq

/-- Constant defaultOptions in App.tsx. -/
def defaultOptions : QrOptions :=
  { errorLevel := ErrorLevel.M }

/-- Constant defaultMaskOptions in App.tsx. -/
def defaultMaskOptions : MaskOptions :=
  { sizePercent := 18, centerXPercent := 50, centerYPercent := 50, opacityPercent := 100 }

/-- Constant errorLevels in App.tsx. -/
def errorLevels : List ErrorLevel :=
  [ErrorLevel.L, ErrorLevel.M, ErrorLevel.Q, ErrorLevel.H]

/-- Query-string code of an error level, as produced by URLSearchParams.set
applied to the ErrorLevel union value. -/
def errorLevelCode : ErrorLevel → String
  | ErrorLevel.L => "L"
  | ErrorLevel.M => "M"
  | ErrorLevel.Q => "Q"
  | ErrorLevel.H => "H"

/-- Function clamp in App.tsx: Math.min(max, Math.max(min, value)).  Generic
over a linear order because the source applies it to integer-valued numbers
(parseNumber, mask geometry) and to the rational alpha in fixedMaskRgba. -/
def clamp {α : Type} [LinearOrder α] (value lo hi : α) : α :=
  min hi (max lo value)

/-- ECMAScript WhiteSpace plus LineTerminator predicate, the character class
trimmed by String.prototype.trim and by string-to-number coercion. -/
def isJsWs (c : Char) : Bool :=
  decide (c.toNat = 9 ∨ c.toNat = 10 ∨ c.toNat = 11 ∨ c.toNat = 12 ∨ c.toNat = 13 ∨
    c.toNat = 32 ∨ c.toNat = 160 ∨ c.toNat = 5760 ∨
    (8192 ≤ c.toNat ∧ c.toNat ≤ 8202) ∨ c.toNat = 8232 ∨ c.toNat = 8233 ∨
    c.toNat = 8239 ∨ c.toNat = 8287 ∨ c.toNat = 12288 ∨ c.toNat = 65279)

/-- Leading and trailing JavaScript whitespace removal on a character list. -/
def jsTrimList (l : List Char) : List Char :=
  ((l.dropWhile isJsWs).reverse.dropWhile isJsWs).reverse

/-- JavaScript String.prototype.trim. -/
def jsTrim (s : String) : String :=
  String.mk (jsTrimList s.data)

/-- Decimal digit test on a character. -/
def isDigit (c : Char) : Bool :=
  decide (48 ≤ c.toNat ∧ c.toNat ≤ 57)

/-- Numeric value of a decimal digit character. -/
def digitVal (c : Char) : ℕ :=
  c.toNat - 48

/-- Value of a decimal digit string, most significant digit first. -/
def digitsVal (l : List Char) : ℕ :=
  l.foldl (fun a c => a * 10 + digitVal c) 0

/-- Hexadecimal digit test on a character. -/
def isHexDigit (c : Char) : Bool :=
  decide ((48 ≤ c.toNat ∧ c.toNat ≤ 57) ∨ (65 ≤ c.toNat ∧ c.toNat ≤ 70) ∨
    (97 ≤ c.toNat ∧ c.toNat ≤ 102))

/-- Numeric value of a hexadecimal digit character. -/
def hexDigitVal (c : Char) : ℕ :=
  if 97 ≤ c.toNat then c.toNat - 87
  else if 65 ≤ c.toNat then c.toNat - 55
  else c.toNat - 48

/-- Value of a hexadecimal digit string, most significant digit first. -/
def hexVal (l : List Char) : ℕ :=
  l.foldl (fun a c => a * 16 + hexDigitVal c) 0

/-- Octal digit test on a character. -/
def isOctDigit (c : Char) : Bool :=
  decide (48 ≤ c.toNat ∧ c.toNat ≤ 55)

/-- Value of an octal digit string, most significant digit first. -/
def octVal (l : List Char) : ℕ :=
  l.foldl (fun a c => a * 8 + digitVal c) 0

/-- Binary digit test on a character. -/
def isBinDigit (c : Char) : Bool :=
  decide (c.toNat = 48 ∨ c.toNat = 49)

/-- Value of a binary digit string, most significant digit first. -/
def binVal (l : List Char) : ℕ :=
  l.foldl (fun a c => a * 2 + digitVal c) 0

/-- Exact rational value kept as an explicit numerator and denominator pair.
ECMAScript defines the mathematical value of a numeric literal in precisely
this shape (significand over a power of ten), and keeping the pair unreduced
lets the kernel evaluate the parser without rational normalisation. -/
structure Frac where
  num : ℤ
  den : ℕ
  deriving DecidableEq

/-- Rational value denoted by a fraction pair. -/
def Frac.toRat (f : Frac) : ℚ :=
  (f.num : ℚ) / (f.den : ℚ)

/-- Negation of a fraction pair. -/
def Frac.neg (f : Frac) : Frac :=
  { num := -f.num, den := f.den }

/-- Result of JavaScript number coercion: NaN, signed infinities, or a finite
value (modelled as an exact rational; IEEE-754 rounding is not modelled). -/
inductive JsNum where
  | nan
  | inf
  | negInf
  | finite (f : Frac)
  deriving DecidableEq

/-- Exponent part of an ECMAScript StrDecimalLiteral: empty input denotes
exponent zero, otherwise the letter e or E followed by an optionally signed
nonempty digit string; anything else is a parse failure. -/
def parseExpPart : List Char → Option ℤ
  | [] => some 0
  | c :: r =>
    if c = 'e' ∨ c = 'E' then
      match r with
      | '+' :: d => if d ≠ [] ∧ d.all isDigit then some ((digitsVal d : ℤ)) else none
      | '-' :: d => if d ≠ [] ∧ d.all isDigit then some (-(digitsVal d : ℤ)) else none
      | d => if d ≠ [] ∧ d.all isDigit then some ((digitsVal d : ℤ)) else none
    else none

/-- Application of a decimal exponent to a significand, exactly. -/
def applyExp (f : Frac) : ℤ → Frac
  | Int.ofNat n => { num := f.num * 10 ^ n, den := f.den }
  | Int.negSucc n => { num := f.num, den := f.den * 10 ^ (n + 1) }

/-- Unsigned ECMAScript StrUnsignedDecimalLiteral other than Infinity:
digits, optional dot with fractional digits, optional exponent part.  The
mathematical value of digits ip, fraction fp and exponent e is
(ip times ten to the fraction length plus fp) over ten to the fraction
length, scaled by ten to the e, exactly as the ECMAScript specification
defines it. -/
def parseDecimalCore (l : List Char) : Option Frac :=
  let ip := l.takeWhile isDigit
  let r1 := l.dropWhile isDigit
  match r1 with
  | '.' :: r2 =>
    let fp := r2.takeWhile isDigit
    let r3 := r2.dropWhile isDigit
    if ip = [] ∧ fp = [] then none
    else
      match parseExpPart r3 with
      | some e =>
        some (applyExp
          { num := (digitsVal ip : ℤ) * 10 ^ fp.length + (digitsVal fp : ℤ),
            den := 10 ^ fp.length } e)
      | none => none
  | _ =>
    if ip = [] then none
    else
      match parseExpPart r1 with
      | some e => some (applyExp { num := (digitsVal ip : ℤ), den := 1 } e)
      | none => none

/-- Signed decimal literal or Infinity, after whitespace trimming and after
the radix-prefixed forms have been ruled out. -/
def decimalMagnitude (neg : Bool) (l : List Char) : JsNum :=
  if l = ['I', 'n', 'f', 'i', 'n', 'i', 't', 'y'] then
    (if neg then JsNum.negInf else JsNum.inf)
  else
    match parseDecimalCore l with
    | some f => JsNum.finite (if neg then f.neg else f)
    | none => JsNum.nan

/-- Sign handling of an ECMAScript StrDecimalLiteral. -/
def decimalWithSign : List Char → JsNum
  | '+' :: r => decimalMagnitude false r
  | '-' :: r => decimalMagnitude true r
  | l => decimalMagnitude false l

/-- Radix-prefixed numeric literals 0x / 0o / 0b of ECMAScript string-to-number
coercion; none when the input is not radix prefixed. -/
def radixVal (l : List Char) : Option JsNum :=
  match l with
  | '0' :: x :: r =>
    if x = 'x' ∨ x = 'X' then
      some (if r ≠ [] ∧ r.all isHexDigit then
        JsNum.finite { num := (hexVal r : ℤ), den := 1 } else JsNum.nan)
    else if x = 'o' ∨ x = 'O' then
      some (if r ≠ [] ∧ r.all isOctDigit then
        JsNum.finite { num := (octVal r : ℤ), den := 1 } else JsNum.nan)
    else if x = 'b' ∨ x = 'B' then
      some (if r ≠ [] ∧ r.all isBinDigit then
        JsNum.finite { num := (binVal r : ℤ), den := 1 } else JsNum.nan)
    else none
  | _ => none

/-- ECMAScript ToNumber applied to a string: trim whitespace, empty means zero,
then radix-prefixed literal, Infinity or signed decimal literal; NaN otherwise.
Finite values are exact rationals in this model. -/
def jsStringToNumber (s : String) : JsNum :=
  let l := jsTrimList s.data
  if l = [] then JsNum.finite { num := 0, den := 1 }
  else
    match radixVal l with
    | some v => v
    | none => decimalWithSign l

/-- JavaScript Number applied to the result of URLSearchParams.get, which is a
string or null.  ECMAScript ToNumber(null) is plus zero, so a missing query
parameter coerces to the finite number 0, not to NaN. -/
def jsToNumber : Option String → JsNum
  | none => JsNum.finite { num := 0, den := 1 }
  | some s => jsStringToNumber s

/-- JavaScript Math.round on a rational: round half toward positive
infinity. -/
def jsRound (q : ℚ) : ℤ :=
  ⌊q + 1 / 2⌋

/-- JavaScript Math.round on a fraction pair, by integer floor division:
the floor of n over d plus one half is the floor of (2 n + d) over (2 d). -/
def jsRoundFrac (f : Frac) : ℤ :=
  (2 * f.num + (f.den : ℤ)) / (2 * (f.den : ℤ))

/-- Function parseNumber in App.tsx: coerce the parameter with Number, return
the fallback when the result is not finite, otherwise round and clamp. -/
def parseNumber (value : Option String) (fallback lo hi : ℤ) : ℤ :=
  match jsToNumber value with
  | JsNum.finite f => clamp (jsRoundFrac f) lo hi
  | _ => fallback

/-- Function parseErrorLevel in App.tsx: keep the parameter when it is a
truthy member of errorLevels, otherwise the fallback. -/
def parseErrorLevel (value : Option String) (fallback : ErrorLevel) : ErrorLevel :=
  match value with
  | none => fallback
  | some s =>
    match errorLevels.find? (fun l => errorLevelCode l == s) with
    | some l => l
    | none => fallback

/-- UTF-8 encoding of a single Unicode scalar value, as a list of byte
values. -/
def utf8Char (n : ℕ) : List ℕ :=
  if n < 128 then [n]
  else if n < 2048 then [192 + n / 64, 128 + n % 64]
  else if n < 65536 then [224 + n / 4096, 128 + n / 64 % 64, 128 + n % 64]
  else [240 + n / 262144, 128 + n / 4096 % 64, 128 + n / 64 % 64, 128 + n % 64]

/-- UTF-8 encoding of a character list. -/
def utf8Encode : List Char → List ℕ
  | [] => []
  | c :: r => utf8Char c.toNat ++ utf8Encode r

/-- Unicode replacement character, emitted by the WHATWG UTF-8 decoder on
malformed input. -/
def replacementChar : Char :=
  Char.ofNat 65533

/-- WHATWG UTF-8 decoder as a byte-driven state machine.  The state is the
number of continuation bytes still needed, the code point accumulated so far,
and the admissible range of the next byte (which encodes the overlong,
surrogate and out-of-range checks).  Error recovery is simplified to consume
the offending byte; no theorem below depends on malformed input. -/
def utf8DecodeLoop : ℕ → ℕ → ℕ → ℕ → List ℕ → List Char
  | needed, _, _, _, [] => if needed = 0 then [] else [replacementChar]
  | needed, acc, lo, hi, b :: rest =>
    if needed = 0 then
      if b < 128 then Char.ofNat b :: utf8DecodeLoop 0 0 128 191 rest
      else if 194 ≤ b ∧ b ≤ 223 then utf8DecodeLoop 1 (b - 192) 128 191 rest
      else if 224 ≤ b ∧ b ≤ 239 then
        utf8DecodeLoop 2 (b - 224) (if b = 224 then 160 else 128)
          (if b = 237 then 159 else 191) rest
      else if 240 ≤ b ∧ b ≤ 244 then
        utf8DecodeLoop 3 (b - 240) (if b = 240 then 144 else 128)
          (if b = 244 then 143 else 191) rest
      else replacementChar :: utf8DecodeLoop 0 0 128 191 rest
    else
      if lo ≤ b ∧ b ≤ hi then
        if needed = 1 then
          Char.ofNat (acc * 64 + (b - 128)) :: utf8DecodeLoop 0 0 128 191 rest
        else utf8DecodeLoop (needed - 1) (acc * 64 + (b - 128)) 128 191 rest
      else replacementChar :: utf8DecodeLoop 0 0 128 191 rest

/-- UTF-8 decoding of a byte list. -/
def utf8Decode (bs : List ℕ) : List Char :=
  utf8DecodeLoop 0 0 128 191 bs

/-- Bytes left unchanged by application/x-www-form-urlencoded serialisation:
ASCII alphanumerics and asterisk, hyphen, dot, underscore. -/
def isUrlSafe (b : ℕ) : Bool :=
  decide ((48 ≤ b ∧ b ≤ 57) ∨ (65 ≤ b ∧ b ≤ 90) ∨ (97 ≤ b ∧ b ≤ 122) ∨
    b = 42 ∨ b = 45 ∨ b = 46 ∨ b = 95)

/-- Uppercase hexadecimal digit character of a value below sixteen. -/
def hexDigitChar (d : ℕ) : Char :=
  if d < 10 then Char.ofNat (48 + d) else Char.ofNat (55 + d)

/-- Form-urlencoding of a single byte: safe bytes stand for themselves, space
becomes plus, every other byte becomes a percent escape. -/
def formEncodeByte (b : ℕ) : List Char :=
  if isUrlSafe b then [Char.ofNat b]
  else if b = 32 then ['+']
  else ['%', hexDigitChar (b / 16), hexDigitChar (b % 16)]

/-- Byte-wise form-urlencoded serialisation helper. -/
def formEncodeBytes : List ℕ → List Char
  | [] => []
  | b :: r => formEncodeByte b ++ formEncodeBytes r

/-- WHATWG application/x-www-form-urlencoded serialisation of a string, as
URLSearchParams.toString applies it to each key and value: UTF-8 encode, then
escape byte-wise. -/
def formEncode (s : String) : List Char :=
  formEncodeBytes (utf8Encode s.data)

/-- WHATWG form-urlencoded percent decoding to bytes: plus is space, a percent
escape with two hexadecimal digits is the escaped byte, a stray percent stands
for itself, all other characters contribute their UTF-8 bytes. -/
def formDecodeBytes : List Char → List ℕ
  | [] => []
  | ['%'] => [37]
  | ['%', c1] => 37 :: formDecodeBytes [c1]
  | '%' :: c1 :: c2 :: r =>
    if isHexDigit c1 ∧ isHexDigit c2 then
      (hexDigitVal c1 * 16 + hexDigitVal c2) :: formDecodeBytes r
    else 37 :: formDecodeBytes (c1 :: c2 :: r)
  | c :: r =>
    if c = '+' then 32 :: formDecodeBytes r
    else utf8Char c.toNat ++ formDecodeBytes r

/-- WHATWG form-urlencoded decoding of a character list to a string. -/
def formDecode (l : List Char) : String :=
  String.mk (utf8Decode (formDecodeBytes l))

/-- Concatenation of encoded name-value segments with ampersands, as in the
URLSearchParams serialiser. -/
def intercalateAmp : List (List Char) → List Char
  | [] => []
  | [x] => x
  | x :: xs => x ++ '&' :: intercalateAmp xs

/-- URLSearchParams.toString: each pair becomes encoded name, equals sign,
encoded value; segments are joined with ampersands. -/
def serializeParams (ps : List (String × String)) : String :=
  String.mk (intercalateAmp (ps.map (fun p => formEncode p.1 ++ '=' :: formEncode p.2)))

/-- Split of a character list at every ampersand. -/
def splitAmp : List Char → List (List Char)
  | [] => [[]]
  | c :: r =>
    if c = '&' then [] :: splitAmp r
    else
      match splitAmp r with
      | [] => [[c]]
      | g :: gs => (c :: g) :: gs

/-- Parse of one name-value segment: split at the first equals sign and decode
both sides; a segment without equals sign is a name with empty value. -/
def parsePair (seg : List Char) : String × String :=
  let k := seg.takeWhile (fun c => c != '=')
  match seg.dropWhile (fun c => c != '=') with
  | [] => (formDecode k, String.mk [])
  | _ :: v => (formDecode k, formDecode v)

/-- WHATWG URLSearchParams constructor applied to window.location.search:
strip one leading question mark, split on ampersands, drop empty segments,
parse each segment as a name-value pair. -/
def parseQuery (search : String) : List (String × String) :=
  let l := match search.data with
    | '?' :: r => r
    | l => l
  ((splitAmp l).filter (fun seg => seg ≠ [])).map parsePair

/-- URLSearchParams.get: value of the first pair with the given name, if
any. -/
def getParam (ps : List (String × String)) (k : String) : Option String :=
  (ps.find? (fun p => p.1 == k)).map (fun p => p.2)

/-- Function parsePermalinkState in App.tsx, reading window.location.search
(the branch for an undefined window never runs in the browser and is not
modelled).  Missing text falls back to the sample URL; the error level and the
four numeric mask parameters go through parseErrorLevel and parseNumber. -/
def parsePermalinkState (search : String) : PermalinkState :=
  let params := parseQuery search
  let textParam := getParam params ("t")
  { text := textParam.getD ("https://example.com")
  , options := { errorLevel := parseErrorLevel (getParam params ("e")) defaultOptions.errorLevel }
  , maskOptions :=
    { sizePercent := parseNumber (getParam params ("ms")) defaultMaskOptions.sizePercent 0 45
    , centerXPercent := parseNumber (getParam params ("mx")) defaultMaskOptions.centerXPercent 0 100
    , centerYPercent := parseNumber (getParam params ("my")) defaultMaskOptions.centerYPercent 0 100
    , opacityPercent := parseNumber (getParam params ("mo")) defaultMaskOptions.opacityPercent 10 100 } }

/-- Fuelled digit expansion of a natural number; fuel at least the number
itself is always sufficient. -/
def jsIntToStringAux : ℕ → ℕ → List Char
  | 0, _ => []
  | fuel + 1, n =>
    if n = 0 then [] else jsIntToStringAux fuel (n / 10) ++ [Char.ofNat (48 + n % 10)]

/-- Decimal digit string of a natural number, most significant digit first. -/
def natToDecChars (n : ℕ) : List Char :=
  if n = 0 then ['0'] else jsIntToStringAux n n

/-- JavaScript String applied to an integer-valued number. -/
def jsIntToString (m : ℤ) : String :=
  if m < 0 then String.mk ('-' :: natToDecChars m.natAbs)
  else String.mk (natToDecChars m.toNat)

/-- Function createPermalink in App.tsx: build the six query parameters in
order, serialise them, and return the query prefixed with a question mark, or
window.location.pathname (a parameter of the model) when the query is empty. -/
def createPermalink (pathname : String) (text : String) (options : QrOptions)
    (maskOptions : MaskOptions) : String :=
  let params : List (String × String) :=
    [ (("t"), text)
    , (("e"), errorLevelCode options.errorLevel)
    , (("ms"), jsIntToString maskOptions.sizePercent)
    , (("mx"), jsIntToString maskOptions.centerXPercent)
    , (("my"), jsIntToString maskOptions.centerYPercent)
    , (("mo"), jsIntToString maskOptions.opacityPercent) ]
  let query := serializeParams params
  if query = String.mk [] then pathname else String.mk ('?' :: query.data)

/-- Colour of one raster pixel, with rational channels (canvas quantisation to
eight bits is not modelled; no claim depends on channel values). -/
structure Pixel where
  r : ℚ
  g : ℚ
  b : ℚ

/-- Raster image: the canvas in applyMaskAndTest has the natural dimensions of
the base image and exposes a colour at every coordinate. -/
structure Image where
  width : ℤ
  height : ℤ
  pix : ℤ → ℤ → Pixel

/-- Colour with alpha, as denoted by a CSS rgba() fill style. -/
structure Rgba where
  r : ℚ
  g : ℚ
  b : ℚ
  a : ℚ

/-- Function fixedMaskRgba in App.tsx: the fixed mask colour rgb(113, 75, 75)
with the alpha clamped to the unit interval. -/
def fixedMaskRgba (alpha : ℚ) : Rgba :=
  { r := 113, g := 75, b := 75, a := clamp alpha 0 1 }

/-- Source-over compositing of a translucent fill colour onto an opaque
destination pixel. -/
def blend (dst : Pixel) (src : Rgba) : Pixel :=
  { r := src.r * src.a + dst.r * (1 - src.a)
  , g := src.g * src.a + dst.g * (1 - src.a)
  , b := src.b * src.a + dst.b * (1 - src.a) }

/-- Canvas fillRect: composite the fill colour over every pixel of the
axis-aligned rectangle with top-left corner (x, y), width w and height h. -/
def fillRect (img : Image) (x y w h : ℤ) (src : Rgba) : Image :=
  { img with
    pix := fun i j =>
      if x ≤ i ∧ i < x + w ∧ y ≤ j ∧ j < y + h then blend (img.pix i j) src
      else img.pix i j }

/-- Mask square geometry of applyMaskAndTest in App.tsx, for a canvas of the
given width and height: side is the rounded fraction of the shorter dimension
with minimum one, the top-left corner is derived from the centre percentages
and clamped so the square stays inside the canvas. -/
def maskRect (w h : ℤ) (m : MaskOptions) : ℤ × ℤ × ℤ :=
  let side : ℤ := max 1 (jsRound ((min w h * m.sizePercent : ℤ) / 100 : ℚ))
  let centerX : ℚ := ((w * m.centerXPercent : ℤ) : ℚ) / 100
  let centerY : ℚ := ((h * m.centerYPercent : ℤ) : ℚ) / 100
  let x := clamp (jsRound (centerX - (side : ℚ) / 2)) 0 (w - side)
  let y := clamp (jsRound (centerY - (side : ℚ) / 2)) 0 (h - side)
  (x, y, side)

/-- Mask compositing step of applyMaskAndTest in App.tsx: draw the base image
on a canvas of its natural size, then, only when sizePercent is positive,
fill the mask square with the fixed colour at the requested opacity. -/
def maskCanvas (image : Image) (m : MaskOptions) : Image :=
  if 0 < m.sizePercent then
    let r := maskRect image.width image.height m
    fillRect image r.1 r.2.1 r.2.2 r.2.2 (fixedMaskRgba ((m.opacityPercent : ℚ) / 100))
  else image

/-- Verification classifier of applyMaskAndTest in App.tsx (lines 120 to 128):
the decoded data of a missing decode result defaults to the empty string;
empty trimmed input is untested, an exact match of the trimmed input is
success, anything else is failed. -/
def classifyDecode (text : String) (decoded : Option String) : DecodeStatus :=
  let normalizedText := jsTrim text
  let decodedText := decoded.getD (String.mk [])
  if normalizedText = String.mk [] then DecodeStatus.untested
  else if decodedText = normalizedText then DecodeStatus.success
  else DecodeStatus.failed

/-- Result of applyMaskAndTest: the exported masked image (PNG export is
lossless and is modelled as the identity) and the classification. -/
structure MaskTestResult where
  maskedDataUrl : Image
  decodeStatus : DecodeStatus

/-- Function applyMaskAndTest in App.tsx, with the jsQR decoder injected as an
opaque capability returning the decoded text, or none when no QR code is
found. -/
def applyMaskAndTest (decoder : Image → Option String) (sourceImage : Image)
    (text : String) (maskOptions : MaskOptions) : MaskTestResult :=
  let canvas := maskCanvas sourceImage maskOptions
  let decoded := decoder canvas
  { maskedDataUrl := canvas, decodeStatus := classifyDecode text decoded }

/-- Validity predicate of MaskOptions, the documented field ranges of the data
model. -/
def MaskInRange (m : MaskOptions) : Prop :=
  0 ≤ m.sizePercent ∧ m.sizePercent ≤ 45 ∧
  0 ≤ m.centerXPercent ∧ m.centerXPercent ≤ 100 ∧
  0 ≤ m.centerYPercent ∧ m.centerYPercent ≤ 100 ∧
  10 ≤ m.opacityPercent ∧ m.opacityPercent ≤ 100

instance (m : MaskOptions) : Decidable (MaskInRange m) := by
  unfold MaskInRange
  infer_instance

/-- Derived view state of the App component: the generated data URL, the
masked data URL, the decode status and the advisory message. -/
structure AppState where
  qrDataUrl : String
  maskedDataUrl : String
  decodeStatus : DecodeStatus
  errorMessage : String
  deriving DecidableEq

/-- Advisory message of the empty-input branch of the encode effect. -/
def emptyTextMessage : String :=
  "Please enter text to generate a QR code."

/-- Advisory message of the catch handler of the encode effect. -/
def encodeFailureMessage : String :=
  "Failed to generate QR code. Please check your inputs."

/-- Synchronous part of the encode effect (App.tsx lines 217 to 229): empty
trimmed text sets the advisory message and resets every derived field without
launching an encode; otherwise the error message is cleared and the encoder is
launched on the trimmed text. -/
def encodeEffectStart (text : String) (st : AppState) : AppState × Option String :=
  if jsTrim text = String.mk [] then
    ({ st with errorMessage := emptyTextMessage, qrDataUrl := String.mk []
             , maskedDataUrl := String.mk [], decodeStatus := DecodeStatus.untested }, none)
  else
    ({ st with errorMessage := String.mk [] }, some (jsTrim text))

/-- Resolution of the encode effect promise while the run is still live
(App.tsx lines 230 to 245): success stores the data URL; failure stores the
advisory message, clears both images and sets the decode status to failed. -/
def encodeEffectResolve (result : Except Unit String) (st : AppState) : AppState :=
  match result with
  | Except.ok dataUrl => { st with qrDataUrl := dataUrl }
  | Except.error _ =>
    { st with errorMessage := encodeFailureMessage, qrDataUrl := String.mk []
            , maskedDataUrl := String.mk [], decodeStatus := DecodeStatus.failed }

/-- Render condition of the decode status line (App.tsx line 420): the status
text is shown exactly when the status differs from untested. -/
def showsDecodeStatus (st : AppState) : Bool :=
  st.decodeStatus != DecodeStatus.untested

/-- One asynchronous effect together with the state it guards: current is the
index of the most recently started run; the closure of run i has its active
flag set exactly while i equals current, because the effect cleanup of run i
runs when the next run starts. -/
structure EffectRuns (σ : Type) where
  current : ℕ
  state : σ

/-- Events of one effect lifecycle: a dependency change starts a new run
(running the cleanup of the previous one first), and an asynchronous
completion of run i tries to commit a state update. -/
inductive PipelineEvent (σ : Type) where
  | newRun : PipelineEvent σ
  | complete : ℕ → (σ → σ) → PipelineEvent σ

/-- Step relation of the effect lifecycle: starting a run invalidates every
earlier one; a completion commits only when its run is still the current one,
mirroring the active-flag check before every state update in both effects of
App.tsx. -/
def pipelineStep {σ : Type} (p : EffectRuns σ) : PipelineEvent σ → EffectRuns σ
  | PipelineEvent.newRun => { p with current := p.current + 1 }
  | PipelineEvent.complete i commit =>
    if i = p.current then { p with state := commit p.state } else p

/-- Folding a list of events over the effect lifecycle. -/
def runEvents {σ : Type} (p : EffectRuns σ) (evs : List (PipelineEvent σ)) : EffectRuns σ :=
  evs.foldl pipelineStep p

/-- Sample view state used by concrete instantiations. -/
def sampleAppState : AppState :=
  { qrDataUrl := "old", maskedDataUrl := "oldmask", decodeStatus := DecodeStatus.success
  , errorMessage := String.mk [] }

/-- Sample opaque base image used by concrete instantiations. -/
def sampleImage : Image :=
  { width := 320, height := 320, pix := fun _ _ => { r := 1, g := 1, b := 1 } }

/-- Sample opaque decoder used by concrete instantiations. -/
def sampleDecoder : Image → Option String :=
  fun _ => none

/-- Mask options of scenario D of the specification. -/
def scenarioDMask : MaskOptions :=
  { sizePercent := 10, centerXPercent := 50, centerYPercent := 50, opacityPercent := 50 }

/-- Mask options with size zero, used by the pass-through instantiation. -/
def zeroSizeMask : MaskOptions :=
  { sizePercent := 0, centerXPercent := 50, centerYPercent := 50, opacityPercent := 100 }

theorem char_toNat_ofNat {n : ℕ} (h : Nat.isValidChar n) : (Char.ofNat n).toNat = n := by
  rw [Char.ofNat, dif_pos h]
  rfl

theorem char_toNat_lt (c : Char) : c.toNat < 1114112 := by
  rcases c.valid with h | h
  · exact lt_trans h (by omega)
  · exact h.2

theorem utf8DecodeLoop_ascii {b : ℕ} (hb : b < 128) (rest : List ℕ) :
    utf8DecodeLoop 0 0 128 191 (b :: rest) =
      Char.ofNat b :: utf8DecodeLoop 0 0 128 191 rest := by
  simp only [utf8DecodeLoop]
  simp [hb]

theorem utf8DecodeLoop_two {n : ℕ} (h1 : 128 ≤ n) (h2 : n < 2048) (rest : List ℕ) :
    utf8DecodeLoop 0 0 128 191 ((192 + n / 64) :: (128 + n % 64) :: rest) =
      Char.ofNat n :: utf8DecodeLoop 0 0 128 191 rest := by
  have c1 : ¬ (192 + n / 64 < 128) := by omega
  have c2 : 194 ≤ 192 + n / 64 ∧ 192 + n / 64 ≤ 223 := by omega
  have c3 : 128 ≤ 128 + n % 64 ∧ 128 + n % 64 ≤ 191 := by omega
  simp only [utf8DecodeLoop]
  simp [c1, c2, c3]
  congr 1
  omega

theorem utf8DecodeLoop_three {n : ℕ} (h1 : 2048 ≤ n) (h2 : n < 65536)
    (hv : n < 55296 ∨ 57343 < n) (rest : List ℕ) :
    utf8DecodeLoop 0 0 128 191
        ((224 + n / 4096) :: (128 + n / 64 % 64) :: (128 + n % 64) :: rest) =
      Char.ofNat n :: utf8DecodeLoop 0 0 128 191 rest := by
  have c1 : ¬ (224 + n / 4096 < 128) := by omega
  have c2 : ¬ (194 ≤ 224 + n / 4096 ∧ 224 + n / 4096 ≤ 223) := by omega
  have c3 : 224 ≤ 224 + n / 4096 ∧ 224 + n / 4096 ≤ 239 := by omega
  have c4 : 128 ≤ 128 + n % 64 ∧ 128 + n % 64 ≤ 191 := by omega
  by_cases hl : n < 4096
  · have d1 : 224 + n / 4096 = 224 := by omega
    have d2 : 160 ≤ 128 + n / 64 % 64 ∧ 128 + n / 64 % 64 ≤ 191 := by omega
    simp only [utf8DecodeLoop]
    simp [c1, c2, c3, c4, d1, d2]
    congr 1
    omega
  · by_cases hm : 53248 ≤ n ∧ n < 57344
    · have d1 : ¬ (224 + n / 4096 = 224) := by omega
      have d2 : 224 + n / 4096 = 237 := by omega
      have hs : n < 55296 := by omega
      have d3 : 128 ≤ 128 + n / 64 % 64 ∧ 128 + n / 64 % 64 ≤ 159 := by omega
      simp only [utf8DecodeLoop]
      simp [c1, c2, c3, c4, d1, d2, d3]
      congr 1
      omega
    · have d1 : ¬ (224 + n / 4096 = 224) := by omega
      have d2 : ¬ (224 + n / 4096 = 237) := by omega
      have d3 : 128 ≤ 128 + n / 64 % 64 ∧ 128 + n / 64 % 64 ≤ 191 := by omega
      simp only [utf8DecodeLoop]
      simp [c1, c2, c3, c4, d1, d2, d3]
      congr 1
      omega

theorem utf8DecodeLoop_four {n : ℕ} (h1 : 65536 ≤ n) (h2 : n < 1114112) (rest : List ℕ) :
    utf8DecodeLoop 0 0 128 191
        ((240 + n / 262144) :: (128 + n / 4096 % 64) :: (128 + n / 64 % 64) ::
          (128 + n % 64) :: rest) =
      Char.ofNat n :: utf8DecodeLoop 0 0 128 191 rest := by
  have c1 : ¬ (240 + n / 262144 < 128) := by omega
  have c2 : ¬ (194 ≤ 240 + n / 262144 ∧ 240 + n / 262144 ≤ 223) := by omega
  have c3 : ¬ (224 ≤ 240 + n / 262144 ∧ 240 + n / 262144 ≤ 239) := by omega
  have c4 : 240 ≤ 240 + n / 262144 ∧ 240 + n / 262144 ≤ 244 := by omega
  have c5 : 128 ≤ 128 + n / 64 % 64 ∧ 128 + n / 64 % 64 ≤ 191 := by omega
  have c6 : 128 ≤ 128 + n % 64 ∧ 128 + n % 64 ≤ 191 := by omega
  by_cases hl : n < 262144
  · have d1 : 240 + n / 262144 = 240 := by omega
    have d2 : 144 ≤ 128 + n / 4096 % 64 ∧ 128 + n / 4096 % 64 ≤ 191 := by omega
    simp only [utf8DecodeLoop]
    simp [c1, c2, c3, c4, c5, c6, d1, d2]
    congr 1
    omega
  · by_cases hh : 1048576 ≤ n
    · have d1 : ¬ (240 + n / 262144 = 240) := by omega
      have d2 : 240 + n / 262144 = 244 := by omega
      have d3 : 128 ≤ 128 + n / 4096 % 64 ∧ 128 + n / 4096 % 64 ≤ 143 := by omega
      simp only [utf8DecodeLoop]
      simp [c1, c2, c3, c4, c5, c6, d1, d2, d3]
      congr 1
      omega
    · have d1 : ¬ (240 + n / 262144 = 240) := by omega
      have d2 : ¬ (240 + n / 262144 = 244) := by omega
      have d3 : 128 ≤ 128 + n / 4096 % 64 ∧ 128 + n / 4096 % 64 ≤ 191 := by omega
      simp only [utf8DecodeLoop]
      simp [c1, c2, c3, c4, c5, c6, d1, d2, d3]
      congr 1
      omega

theorem utf8DecodeLoop_chunk {n : ℕ} (h : Nat.isValidChar n) (rest : List ℕ) :
    utf8DecodeLoop 0 0 128 191 (utf8Char n ++ rest) =
      Char.ofNat n :: utf8DecodeLoop 0 0 128 191 rest := by
  have hn : n < 1114112 := by
    rcases h with h | h
    · omega
    · omega
  unfold utf8Char
  by_cases h1 : n < 128
  · rw [if_pos h1]
    exact utf8DecodeLoop_ascii h1 rest
  · rw [if_neg h1]
    by_cases h2 : n < 2048
    · rw [if_pos h2]
      exact utf8DecodeLoop_two (by omega) h2 rest
    · rw [if_neg h2]
      by_cases h3 : n < 65536
      · rw [if_pos h3]
        have hv : n < 55296 ∨ 57343 < n := by
          rcases h with h | h
          · exact Or.inl h
          · exact Or.inr h.1
        exact utf8DecodeLoop_three (by omega) h3 hv rest
      · rw [if_neg h3]
        exact utf8DecodeLoop_four (by omega) hn rest

theorem utf8Decode_encode (cs : List Char) : utf8Decode (utf8Encode cs) = cs := by
  induction cs with
  | nil => rfl
  | cons c r ih =>
    have hv : Nat.isValidChar c.toNat := c.valid
    show utf8DecodeLoop 0 0 128 191 (utf8Char c.toNat ++ utf8Encode r) = c :: r
    rw [utf8DecodeLoop_chunk hv, Char.ofNat_toNat]
    exact congrArg (fun l => c :: l) ih

theorem formDecodeBytes_plus (r : List Char) :
    formDecodeBytes ('+' :: r) = 32 :: formDecodeBytes r := by
  rw [formDecodeBytes.eq_def]
  split
  · simp_all
  · simp_all
  · simp_all
  · simp_all
  · rename_i heq
    rcases heq with ⟨h3, h4⟩
    simp

theorem formDecodeBytes_other {c : Char} (h1 : c ≠ '%') (h2 : c ≠ '+') (r : List Char) :
    formDecodeBytes (c :: r) = utf8Char c.toNat ++ formDecodeBytes r := by
  rw [formDecodeBytes.eq_def]
  split
  · simp_all
  · simp_all
  · simp_all
  · simp_all
  · simp_all

theorem formDecodeBytes_percent_hex {c1 c2 : Char} (h1 : isHexDigit c1 = true)
    (h2 : isHexDigit c2 = true) (r : List Char) :
    formDecodeBytes ('%' :: c1 :: c2 :: r) =
      (hexDigitVal c1 * 16 + hexDigitVal c2) :: formDecodeBytes r := by
  rw [formDecodeBytes.eq_def]
  split
  · simp_all
  · simp_all
  · simp_all
  · simp_all
  · rename_i hn0 hn1 hn2 heq
    rcases heq with ⟨h3, h4⟩
    exact absurd rfl (hn2 c1 c2 r rfl)

theorem isUrlSafe_lt {b : ℕ} (h : isUrlSafe b = true) : b < 128 := by
  simp [isUrlSafe] at h
  rcases h with h | h | h | h | h | h | h <;> omega

theorem charOfNat_eq_toNat {b : ℕ} (hb : b < 55296) {c : Char} (h : Char.ofNat b = c) :
    b = c.toNat := by
  have h2 := congrArg Char.toNat h
  rwa [char_toNat_ofNat (Or.inl hb)] at h2

theorem hexDigitChar_isHex {d : ℕ} (hd : d < 16) : isHexDigit (hexDigitChar d) = true := by
  interval_cases d <;> decide

theorem hexDigitVal_hexDigitChar {d : ℕ} (hd : d < 16) : hexDigitVal (hexDigitChar d) = d := by
  interval_cases d <;> decide

theorem formDecodeBytes_encodeByte {b : ℕ} (hb : b < 256) (t : List Char) :
    formDecodeBytes (formEncodeByte b ++ t) = b :: formDecodeBytes t := by
  unfold formEncodeByte
  by_cases hs : isUrlSafe b
  · rw [if_pos hs]
    have hlt : b < 128 := isUrlSafe_lt hs
    have hvb : Nat.isValidChar b := Or.inl (by omega)
    have hnp : Char.ofNat b ≠ '%' := by
      intro h
      have h37 := charOfNat_eq_toNat (by omega) h
      rw [show ('%').toNat = 37 from rfl] at h37
      rw [h37] at hs
      exact absurd hs (by decide)
    have hnplus : Char.ofNat b ≠ '+' := by
      intro h
      have h43 := charOfNat_eq_toNat (by omega) h
      rw [show ('+').toNat = 43 from rfl] at h43
      rw [h43] at hs
      exact absurd hs (by decide)
    show formDecodeBytes (Char.ofNat b :: t) = b :: formDecodeBytes t
    rw [formDecodeBytes_other hnp hnplus, char_toNat_ofNat hvb]
    unfold utf8Char
    rw [if_pos hlt]
    rfl
  · rw [if_neg hs]
    by_cases h32 : b = 32
    · rw [if_pos h32]
      subst h32
      exact formDecodeBytes_plus t
    · rw [if_neg h32]
      show formDecodeBytes ('%' :: hexDigitChar (b / 16) :: hexDigitChar (b % 16) :: t) = _
      rw [formDecodeBytes_percent_hex (hexDigitChar_isHex (by omega))
        (hexDigitChar_isHex (by omega))]
      rw [hexDigitVal_hexDigitChar (by omega), hexDigitVal_hexDigitChar (by omega)]
      congr 1
      omega

theorem formDecodeBytes_encodeBytes {bs : List ℕ} (h : ∀ b ∈ bs, b < 256) :
    formDecodeBytes (formEncodeBytes bs) = bs := by
  induction bs with
  | nil => rfl
  | cons b r ih =>
    show formDecodeBytes (formEncodeByte b ++ formEncodeBytes r) = b :: r
    rw [formDecodeBytes_encodeByte (h b (by simp))]
    rw [ih (fun x hx => h x (by simp [hx]))]

theorem utf8Char_lt_256 {n : ℕ} (hn : n < 1114112) : ∀ b ∈ utf8Char n, b < 256 := by
  intro b hb
  unfold utf8Char at hb
  by_cases h1 : n < 128
  · rw [if_pos h1] at hb
    simp at hb
    omega
  · rw [if_neg h1] at hb
    by_cases h2 : n < 2048
    · rw [if_pos h2] at hb
      simp at hb
      rcases hb with hb | hb <;> omega
    · rw [if_neg h2] at hb
      by_cases h3 : n < 65536
      · rw [if_pos h3] at hb
        simp at hb
        rcases hb with hb | hb | hb <;> omega
      · rw [if_neg h3] at hb
        simp at hb
        rcases hb with hb | hb | hb | hb <;> omega

theorem utf8Encode_lt_256 (cs : List Char) : ∀ b ∈ utf8Encode cs, b < 256 := by
  induction cs with
  | nil => intro b hb; simp [utf8Encode] at hb
  | cons c r ih =>
    intro b hb
    rcases List.mem_append.mp hb with hb | hb
    · exact utf8Char_lt_256 (char_toNat_lt c) b hb
    · exact ih b hb

theorem formDecode_formEncode (s : String) : formDecode (formEncode s) = s := by
  unfold formDecode formEncode
  rw [formDecodeBytes_encodeBytes (utf8Encode_lt_256 s.data), utf8Decode_encode]

theorem formEncodeByte_chars {b : ℕ} (hb : b < 256) :
    ∀ c ∈ formEncodeByte b, c ≠ '&' ∧ c ≠ '=' := by
  intro c hc
  unfold formEncodeByte at hc
  by_cases hs : isUrlSafe b
  · rw [if_pos hs] at hc
    simp at hc
    subst hc
    have hlt := isUrlSafe_lt hs
    constructor
    · intro h
      have h38 := charOfNat_eq_toNat (by omega) h
      rw [show ('&').toNat = 38 from rfl] at h38
      rw [h38] at hs
      exact absurd hs (by decide)
    · intro h
      have h61 := charOfNat_eq_toNat (by omega) h
      rw [show ('=').toNat = 61 from rfl] at h61
      rw [h61] at hs
      exact absurd hs (by decide)
  · rw [if_neg hs] at hc
    by_cases h32 : b = 32
    · rw [if_pos h32] at hc
      simp at hc
      subst hc
      exact ⟨by decide, by decide⟩
    · rw [if_neg h32] at hc
      simp at hc
      have hd1 : b / 16 < 16 := by omega
      have hd2 : b % 16 < 16 := by omega
      rcases hc with hc | hc | hc
      · subst hc
        exact ⟨by decide, by decide⟩
      · subst hc
        revert hd1
        generalize b / 16 = d
        intro hd
        interval_cases d <;> exact ⟨by decide, by decide⟩
      · subst hc
        revert hd2
        generalize b % 16 = d
        intro hd
        interval_cases d <;> exact ⟨by decide, by decide⟩

theorem formEncode_chars (s : String) : ∀ c ∈ formEncode s, c ≠ '&' ∧ c ≠ '=' := by
  unfold formEncode
  generalize utf8Encode_lt_256 s.data = h
  revert h
  generalize utf8Encode s.data = bs
  intro h
  induction bs with
  | nil => intro c hc; simp [formEncodeBytes] at hc
  | cons b r ih =>
    intro c hc
    rcases List.mem_append.mp hc with hc | hc
    · exact formEncodeByte_chars (h b (by simp)) c hc
    · exact ih (fun x hx => h x (by simp [hx])) c hc

theorem splitAmp_no_amp {l : List Char} (h : ∀ c ∈ l, c ≠ '&') : splitAmp l = [l] := by
  induction l with
  | nil => rfl
  | cons c r ih =>
    have hc : c ≠ '&' := h c (by simp)
    simp only [splitAmp]
    rw [if_neg hc, ih (fun x hx => h x (by simp [hx]))]

theorem splitAmp_append {a : List Char} (b : List Char) (h : ∀ c ∈ a, c ≠ '&') :
    splitAmp (a ++ '&' :: b) = a :: splitAmp b := by
  induction a with
  | nil =>
    show splitAmp ('&' :: b) = [] :: splitAmp b
    simp [splitAmp]
  | cons c r ih =>
    have hc : c ≠ '&' := h c (by simp)
    show splitAmp (c :: (r ++ '&' :: b)) = (c :: r) :: splitAmp b
    simp only [splitAmp]
    rw [if_neg hc, ih (fun x hx => h x (by simp [hx]))]

theorem splitAmp_intercalate :
    ∀ segs : List (List Char), segs ≠ [] → (∀ s ∈ segs, ∀ c ∈ s, c ≠ '&') →
      splitAmp (intercalateAmp segs) = segs := by
  intro segs
  induction segs with
  | nil => intro h; exact absurd rfl h
  | cons s rest ih =>
    intro _ h
    cases rest with
    | nil => exact splitAmp_no_amp (h s (by simp))
    | cons s2 r2 =>
      show splitAmp (s ++ '&' :: intercalateAmp (s2 :: r2)) = s :: (s2 :: r2)
      rw [splitAmp_append (intercalateAmp (s2 :: r2)) (h s (by simp))]
      rw [ih (by simp) (fun x hx => h x (by simp [hx]))]

theorem takeWhile_append_all {p : Char → Bool} {a : List Char} (b : List Char)
    (h : ∀ c ∈ a, p c = true) :
    List.takeWhile p (a ++ b) = a ++ List.takeWhile p b := by
  induction a with
  | nil => rfl
  | cons c r ih =>
    have hc : p c = true := h c (by simp)
    simp only [List.cons_append, List.takeWhile_cons, hc]
    rw [ih (fun x hx => h x (by simp [hx]))]
    simp

theorem dropWhile_append_all {p : Char → Bool} {a : List Char} (b : List Char)
    (h : ∀ c ∈ a, p c = true) :
    List.dropWhile p (a ++ b) = List.dropWhile p b := by
  induction a with
  | nil => rfl
  | cons c r ih =>
    have hc : p c = true := h c (by simp)
    simp only [List.cons_append, List.dropWhile_cons, hc]
    exact ih (fun x hx => h x (by simp [hx]))

theorem parsePair_encodePair (k v : String) :
    parsePair (formEncode k ++ '=' :: formEncode v) = (k, v) := by
  have hk : ∀ c ∈ formEncode k, (c != '=') = true := by
    intro c hc
    have h2 := (formEncode_chars k c hc).2
    simpa using h2
  unfold parsePair
  rw [takeWhile_append_all _ hk, dropWhile_append_all _ hk]
  simp only [List.takeWhile_cons, List.dropWhile_cons]
  simp [formDecode_formEncode]

theorem parseQuery_serialize (ps : List (String × String)) (hne : ps ≠ []) :
    parseQuery (String.mk ('?' :: (serializeParams ps).data)) = ps := by
  unfold parseQuery
  show ((splitAmp (serializeParams ps).data).filter (fun seg => seg ≠ [])).map parsePair = ps
  unfold serializeParams
  have hsegs : ∀ s ∈ ps.map (fun p => formEncode p.1 ++ '=' :: formEncode p.2),
      ∀ c ∈ s, c ≠ '&' := by
    intro s hs c hc
    rcases List.mem_map.mp hs with ⟨p, _, rfl⟩
    rcases List.mem_append.mp hc with hc | hc
    · exact (formEncode_chars p.1 c hc).1
    · rcases List.mem_cons.mp hc with rfl | hc
      · decide
      · exact (formEncode_chars p.2 c hc).1
  have hne2 : ps.map (fun p => formEncode p.1 ++ '=' :: formEncode p.2) ≠ [] := by
    simpa using hne
  rw [show (String.mk (intercalateAmp (ps.map
    (fun p => formEncode p.1 ++ '=' :: formEncode p.2)))).data =
    intercalateAmp (ps.map (fun p => formEncode p.1 ++ '=' :: formEncode p.2)) from rfl]
  rw [splitAmp_intercalate _ hne2 hsegs]
  have hfil : (ps.map (fun p => formEncode p.1 ++ '=' :: formEncode p.2)).filter
      (fun seg => seg ≠ []) = ps.map (fun p => formEncode p.1 ++ '=' :: formEncode p.2) := by
    apply List.filter_eq_self.mpr
    intro s hs
    rcases List.mem_map.mp hs with ⟨p, _, rfl⟩
    simp
  rw [hfil, List.map_map]
  have hmap : (parsePair ∘ fun p : String × String =>
      formEncode p.1 ++ '=' :: formEncode p.2) = id := by
    funext p
    show parsePair (formEncode p.1 ++ '=' :: formEncode p.2) = p
    rw [parsePair_encodePair]
  rw [hmap, List.map_id]

theorem digitsVal_append_digit (l : List Char) (c : Char) :
    digitsVal (l ++ [c]) = digitsVal l * 10 + digitVal c := by
  unfold digitsVal
  rw [List.foldl_append]
  rfl

theorem jsIntToStringAux_spec :
    ∀ fuel n : ℕ, n ≤ fuel →
      digitsVal (jsIntToStringAux fuel n) = n ∧
      (∀ c ∈ jsIntToStringAux fuel n, isDigit c = true) := by
  intro fuel
  induction fuel with
  | zero =>
    intro n hn
    interval_cases n
    exact ⟨rfl, by simp [jsIntToStringAux]⟩
  | succ f ih =>
    intro n hn
    by_cases h0 : n = 0
    · subst h0
      exact ⟨rfl, by simp [jsIntToStringAux]⟩
    · have heq : jsIntToStringAux (f + 1) n =
          jsIntToStringAux f (n / 10) ++ [Char.ofNat (48 + n % 10)] := by
        simp only [jsIntToStringAux]
        rw [if_neg h0]
      have ihh := ih (n / 10) (by omega)
      have hdig : isDigit (Char.ofNat (48 + n % 10)) = true := by
        have hm : n % 10 < 10 := by omega
        revert hm
        generalize n % 10 = d
        intro hd
        interval_cases d <;> decide
      have hdv : digitVal (Char.ofNat (48 + n % 10)) = n % 10 := by
        have hm : n % 10 < 10 := by omega
        revert hm
        generalize n % 10 = d
        intro hd
        interval_cases d <;> decide
      constructor
      · rw [heq, digitsVal_append_digit, ihh.1, hdv]
        omega
      · rw [heq]
        intro c hc
        rcases List.mem_append.mp hc with hc | hc
        · exact ihh.2 c hc
        · rcases List.mem_singleton.mp hc with rfl
          exact hdig

theorem natToDecChars_spec (n : ℕ) :
    digitsVal (natToDecChars n) = n ∧ (∀ c ∈ natToDecChars n, isDigit c = true) ∧
      natToDecChars n ≠ [] := by
  unfold natToDecChars
  by_cases h : n = 0
  · subst h
    exact ⟨rfl, by decide, by simp⟩
  · rw [if_neg h]
    have hs := jsIntToStringAux_spec n n le_rfl
    refine ⟨hs.1, hs.2, ?_⟩
    cases hn : n with
    | zero => exact absurd hn h
    | succ m =>
      subst hn
      simp only [jsIntToStringAux]
      rw [if_neg h]
      simp

theorem jsWs_not_digit {c : Char} (h : isDigit c = true) : isJsWs c = false := by
  simp [isDigit] at h
  simp [isJsWs]
  omega

theorem jsTrimList_all_digits {l : List Char} (h : ∀ c ∈ l, isDigit c = true) :
    jsTrimList l = l := by
  unfold jsTrimList
  have h1 : l.dropWhile isJsWs = l := by
    cases l with
    | nil => rfl
    | cons c r =>
      rw [List.dropWhile_cons, jsWs_not_digit (h c (by simp))]
      simp
  rw [h1]
  have h2 : l.reverse.dropWhile isJsWs = l.reverse := by
    cases hr : l.reverse with
    | nil => rfl
    | cons c r =>
      have hc : c ∈ l := by
        rw [← List.mem_reverse, hr]
        simp
      rw [List.dropWhile_cons, jsWs_not_digit (h c hc)]
      simp [hr]
  rw [h2, List.reverse_reverse]

theorem takeWhile_all_eq {p : Char → Bool} {l : List Char} (h : ∀ c ∈ l, p c = true) :
    l.takeWhile p = l := by
  induction l with
  | nil => rfl
  | cons c r ih =>
    rw [List.takeWhile_cons, h c (by simp)]
    simp only [ite_true]
    rw [ih (fun x hx => h x (by simp [hx]))]

theorem dropWhile_all_eq {p : Char → Bool} {l : List Char} (h : ∀ c ∈ l, p c = true) :
    l.dropWhile p = [] := by
  induction l with
  | nil => rfl
  | cons c r ih =>
    rw [List.dropWhile_cons, h c (by simp)]
    simp only [ite_true]
    exact ih (fun x hx => h x (by simp [hx]))

theorem digit_ne_of {x c : Char} (h : isDigit x = true) (hc : isDigit c = false) : x ≠ c := by
  intro hh
  subst hh
  rw [h] at hc
  cases hc

theorem parseDecimalCore_digits {l : List Char} (hne : l ≠ [])
    (h : ∀ c ∈ l, isDigit c = true) :
    parseDecimalCore l = some { num := (digitsVal l : ℤ), den := 1 } := by
  unfold parseDecimalCore
  rw [takeWhile_all_eq h, dropWhile_all_eq h]
  simp [hne, parseExpPart, applyExp]

theorem decimalMagnitude_digits {l : List Char} (hne : l ≠ [])
    (h : ∀ c ∈ l, isDigit c = true) :
    decimalMagnitude false l = JsNum.finite { num := (digitsVal l : ℤ), den := 1 } := by
  unfold decimalMagnitude
  have hinf : l ≠ ['I', 'n', 'f', 'i', 'n', 'i', 't', 'y'] := by
    intro hh
    subst hh
    exact absurd (h 'I' (by simp)) (by decide)
  rw [if_neg hinf, parseDecimalCore_digits hne h]
  simp

theorem decimalWithSign_digits {l : List Char} (hne : l ≠ [])
    (h : ∀ c ∈ l, isDigit c = true) :
    decimalWithSign l = JsNum.finite { num := (digitsVal l : ℤ), den := 1 } := by
  cases l with
  | nil => exact absurd rfl hne
  | cons c r =>
    have hc := h c (by simp)
    have hplus : c ≠ '+' := digit_ne_of hc (by decide)
    have hminus : c ≠ '-' := digit_ne_of hc (by decide)
    rw [decimalWithSign.eq_def]
    split
    · rename_i heq
      rcases heq with ⟨h1, h2⟩
      exact absurd rfl hplus
    · rename_i heq
      rcases heq with ⟨h1, h2⟩
      exact absurd rfl hminus
    · rename_i hx1 hx2
      exact decimalMagnitude_digits hne h

theorem radixVal_digits {l : List Char} (h : ∀ c ∈ l, isDigit c = true) :
    radixVal l = none := by
  rw [radixVal.eq_def]
  split
  next scr x r =>
    have hx : isDigit x = true := h x (by simp)
    have q1 : ¬ (x = 'x' ∨ x = 'X') := by
      rintro (rfl | rfl) <;> revert hx <;> decide
    have q2 : ¬ (x = 'o' ∨ x = 'O') := by
      rintro (rfl | rfl) <;> revert hx <;> decide
    have q3 : ¬ (x = 'b' ∨ x = 'B') := by
      rintro (rfl | rfl) <;> revert hx <;> decide
    rw [if_neg q1, if_neg q2, if_neg q3]
  next => rfl

theorem jsStringToNumber_digits {l : List Char} (hne : l ≠ [])
    (h : ∀ c ∈ l, isDigit c = true) :
    jsStringToNumber (String.mk l) = JsNum.finite { num := (digitsVal l : ℤ), den := 1 } := by
  unfold jsStringToNumber
  rw [show (String.mk l).data = l from rfl, jsTrimList_all_digits h, if_neg hne,
    radixVal_digits h]
  exact decimalWithSign_digits hne h

theorem jsRoundFrac_int (n : ℤ) : jsRoundFrac { num := n, den := 1 } = n := by
  unfold jsRoundFrac
  show (2 * n + ((1 : ℕ) : ℤ)) / (2 * ((1 : ℕ) : ℤ)) = n
  norm_num
  omega

theorem clamp_of_le {v lo hi : ℤ} (h1 : lo ≤ v) (h2 : v ≤ hi) : clamp v lo hi = v := by
  unfold clamp
  omega

theorem parseNumber_intString {n : ℤ} (fb lo hi : ℤ) (h0 : 0 ≤ n) (h1 : lo ≤ n)
    (h2 : n ≤ hi) : parseNumber (some (jsIntToString n)) fb lo hi = n := by
  unfold jsIntToString
  rw [if_neg (by omega)]
  show parseNumber (some (String.mk (natToDecChars n.toNat))) fb lo hi = n
  unfold parseNumber
  rw [show jsToNumber (some (String.mk (natToDecChars n.toNat))) =
    jsStringToNumber (String.mk (natToDecChars n.toNat)) from rfl]
  rw [jsStringToNumber_digits (natToDecChars_spec n.toNat).2.2 (natToDecChars_spec n.toNat).2.1]
  rw [(natToDecChars_spec n.toNat).1]
  show clamp (jsRoundFrac { num := (n.toNat : ℤ), den := 1 }) lo hi = n
  rw [jsRoundFrac_int, Int.toNat_of_nonneg h0, clamp_of_le h1 h2]

theorem parseErrorLevel_code (l fb : ErrorLevel) :
    parseErrorLevel (some (errorLevelCode l)) fb = l := by
  cases l <;> rfl

theorem serializeParams_cons_ne_empty (p : String × String) (ps : List (String × String)) :
    serializeParams (p :: ps) ≠ String.mk [] := by
  unfold serializeParams
  intro h
  have hd : intercalateAmp ((p :: ps).map
      (fun q => formEncode q.1 ++ '=' :: formEncode q.2)) = [] := congrArg String.data h
  rw [List.map_cons] at hd
  cases hmap : ps.map (fun q => formEncode q.1 ++ '=' :: formEncode q.2) with
  | nil =>
    rw [hmap] at hd
    simp [intercalateAmp] at hd
  | cons a b =>
    rw [hmap] at hd
    simp [intercalateAmp] at hd

theorem parse_create_roundtrip (pathname text : String) (lvl : ErrorLevel) (m : MaskOptions)
    (hm : MaskInRange m) :
    parsePermalinkState (createPermalink pathname text { errorLevel := lvl } m) =
      { text := text, options := { errorLevel := lvl }, maskOptions := m } := by
  obtain ⟨h1, h2, h3, h4, h5, h6, h7, h8⟩ := hm
  simp only [createPermalink]
  rw [if_neg (serializeParams_cons_ne_empty _ _)]
  simp only [parsePermalinkState]
  rw [show (String.mk ('?' :: (serializeParams
    [ (("t"), text)
    , (("e"), errorLevelCode lvl)
    , (("ms"), jsIntToString m.sizePercent)
    , (("mx"), jsIntToString m.centerXPercent)
    , (("my"), jsIntToString m.centerYPercent)
    , (("mo"), jsIntToString m.opacityPercent) ]).data)) =
    String.mk ('?' :: (serializeParams
    [ (("t"), text)
    , (("e"), errorLevelCode lvl)
    , (("ms"), jsIntToString m.sizePercent)
    , (("mx"), jsIntToString m.centerXPercent)
    , (("my"), jsIntToString m.centerYPercent)
    , (("mo"), jsIntToString m.opacityPercent) ]).data) from rfl]
  rw [parseQuery_serialize _ (by simp)]
  have e2 : parseErrorLevel (some (errorLevelCode lvl)) defaultOptions.errorLevel = lvl :=
    parseErrorLevel_code lvl _
  have e3 := parseNumber_intString (n := m.sizePercent)
    defaultMaskOptions.sizePercent 0 45 h1 h1 h2
  have e4 := parseNumber_intString (n := m.centerXPercent)
    defaultMaskOptions.centerXPercent 0 100 h3 h3 h4
  have e5 := parseNumber_intString (n := m.centerYPercent)
    defaultMaskOptions.centerYPercent 0 100 h5 h5 h6
  have e6 := parseNumber_intString (n := m.opacityPercent)
    defaultMaskOptions.opacityPercent 10 100 (by omega) h7 h8
  show PermalinkState.mk _ _ _ = _
  rw [show getParam
    [ (("t"), text)
    , (("e"), errorLevelCode lvl)
    , (("ms"), jsIntToString m.sizePercent)
    , (("mx"), jsIntToString m.centerXPercent)
    , (("my"), jsIntToString m.centerYPercent)
    , (("mo"), jsIntToString m.opacityPercent) ] ("t") = some text from rfl]
  rw [show getParam
    [ (("t"), text)
    , (("e"), errorLevelCode lvl)
    , (("ms"), jsIntToString m.sizePercent)
    , (("mx"), jsIntToString m.centerXPercent)
    , (("my"), jsIntToString m.centerYPercent)
    , (("mo"), jsIntToString m.opacityPercent) ] ("e") = some (errorLevelCode lvl) from rfl]
  rw [show getParam
    [ (("t"), text)
    , (("e"), errorLevelCode lvl)
    , (("ms"), jsIntToString m.sizePercent)
    , (("mx"), jsIntToString m.centerXPercent)
    , (("my"), jsIntToString m.centerYPercent)
    , (("mo"), jsIntToString m.opacityPercent) ] ("ms") = some (jsIntToString m.sizePercent)
    from rfl]
  rw [show getParam
    [ (("t"), text)
    , (("e"), errorLevelCode lvl)
    , (("ms"), jsIntToString m.sizePercent)
    , (("mx"), jsIntToString m.centerXPercent)
    , (("my"), jsIntToString m.centerYPercent)
    , (("mo"), jsIntToString m.opacityPercent) ] ("mx") = some (jsIntToString m.centerXPercent)
    from rfl]
  rw [show getParam
    [ (("t"), text)
    , (("e"), errorLevelCode lvl)
    , (("ms"), jsIntToString m.sizePercent)
    , (("mx"), jsIntToString m.centerXPercent)
    , (("my"), jsIntToString m.centerYPercent)
    , (("mo"), jsIntToString m.opacityPercent) ] ("my") = some (jsIntToString m.centerYPercent)
    from rfl]
  rw [show getParam
    [ (("t"), text)
    , (("e"), errorLevelCode lvl)
    , (("ms"), jsIntToString m.sizePercent)
    , (("mx"), jsIntToString m.centerXPercent)
    , (("my"), jsIntToString m.centerYPercent)
    , (("mo"), jsIntToString m.opacityPercent) ] ("mo") = some (jsIntToString m.opacityPercent)
    from rfl]
  rw [e2, e3, e4, e5, e6]
  simp

theorem parseNumber_range (v : Option String) {fb lo hi : ℤ} (hfb1 : lo ≤ fb)
    (hfb2 : fb ≤ hi) :
    lo ≤ parseNumber v fb lo hi ∧ parseNumber v fb lo hi ≤ hi := by
  unfold parseNumber
  cases jsToNumber v with
  | nan => exact ⟨hfb1, hfb2⟩
  | inf => exact ⟨hfb1, hfb2⟩
  | negInf => exact ⟨hfb1, hfb2⟩
  | finite f =>
    show lo ≤ clamp (jsRoundFrac f) lo hi ∧ clamp (jsRoundFrac f) lo hi ≤ hi
    unfold clamp
    omega

theorem applyExp_den_pos {g : Frac} (hg : 0 < g.den) (e : ℤ) : 0 < (applyExp g e).den := by
  cases e with
  | ofNat n => simpa [applyExp] using hg
  | negSucc n =>
    simp only [applyExp]
    exact Nat.mul_pos hg (pow_pos (by norm_num) (n + 1))

theorem parseDecimalCore_den_pos {l : List Char} {f : Frac}
    (h : parseDecimalCore l = some f) : 0 < f.den := by
  simp only [parseDecimalCore] at h
  split at h
  · split at h
    · exact absurd h (by simp)
    · split at h
      · injection h with h2
        rw [← h2]
        exact applyExp_den_pos (pow_pos (by norm_num) _) _
      · exact absurd h (by simp)
  · split at h
    · exact absurd h (by simp)
    · split at h
      · injection h with h2
        rw [← h2]
        exact applyExp_den_pos (by norm_num) _
      · exact absurd h (by simp)

theorem decimalMagnitude_den_pos {neg : Bool} {l : List Char} {f : Frac}
    (h : decimalMagnitude neg l = JsNum.finite f) : 0 < f.den := by
  unfold decimalMagnitude at h
  split at h
  · split at h <;> exact absurd h (by simp)
  · split at h
    next g hg =>
      injection h with h2
      have hd := parseDecimalCore_den_pos hg
      rw [← h2]
      cases neg <;> simpa [Frac.neg] using hd
    next => exact absurd h (by simp)

theorem decimalWithSign_den_pos {l : List Char} {f : Frac}
    (h : decimalWithSign l = JsNum.finite f) : 0 < f.den := by
  rw [decimalWithSign.eq_def] at h
  split at h <;> exact decimalMagnitude_den_pos h

theorem radixVal_den_pos {l : List Char} {v : JsNum} {f : Frac}
    (h : radixVal l = some v) (hv : v = JsNum.finite f) : 0 < f.den := by
  rw [radixVal.eq_def] at h
  split at h
  · split at h
    · injection h with h2
      subst h2
      split at hv
      · injection hv with h3
        rw [← h3]
        norm_num
      · exact absurd hv (by simp)
    · split at h
      · injection h with h2
        subst h2
        split at hv
        · injection hv with h3
          rw [← h3]
          norm_num
        · exact absurd hv (by simp)
      · split at h
        · injection h with h2
          subst h2
          split at hv
          · injection hv with h3
            rw [← h3]
            norm_num
          · exact absurd hv (by simp)
        · exact absurd h (by simp)
  · exact absurd h (by simp)

theorem jsStringToNumber_den_pos {s : String} {f : Frac}
    (h : jsStringToNumber s = JsNum.finite f) : 0 < f.den := by
  simp only [jsStringToNumber] at h
  split at h
  · injection h with h2
    rw [← h2]
    norm_num
  · split at h
    next v hv => exact radixVal_den_pos hv h
    next => exact decimalWithSign_den_pos h

theorem jsToNumber_den_pos {v : Option String} {f : Frac}
    (h : jsToNumber v = JsNum.finite f) : 0 < f.den := by
  cases v with
  | none =>
    injection h with h2
    rw [← h2]
    norm_num
  | some s => exact jsStringToNumber_den_pos h

theorem jsRoundFrac_eq_floor {f : Frac} (h : 0 < f.den) :
    jsRoundFrac f = ⌊f.toRat + 1 / 2⌋ := by
  unfold jsRoundFrac Frac.toRat
  have hd : ((f.den : ℤ) : ℚ) ≠ 0 := by
    have : (0 : ℤ) < (f.den : ℤ) := by exact_mod_cast h
    exact_mod_cast this.ne.symm
  have hq : (f.num : ℚ) / ((f.den : ℕ) : ℚ) + 1 / 2 =
      (((2 * f.num + (f.den : ℤ)) : ℤ) : ℚ) / (((2 * f.den : ℕ) : ℕ) : ℚ) := by
    push_cast
    rw [div_add_div _ _ (by exact_mod_cast hd) (by norm_num : (2 : ℚ) ≠ 0)]
    rw [div_eq_div_iff (by positivity) (by positivity)]
    ring
  rw [hq, Rat.floor_intCast_div_natCast]
  push_cast
  rfl

theorem maskRect_bounds {w h : ℤ} {m : MaskOptions} (hw : 1 ≤ w) (hh : 1 ≤ h)
    (hs : 0 < m.sizePercent) (hs45 : m.sizePercent ≤ 45) :
    1 ≤ (maskRect w h m).2.2 ∧ (maskRect w h m).2.2 ≤ min w h ∧
    0 ≤ (maskRect w h m).1 ∧ 0 ≤ (maskRect w h m).2.1 ∧
    (maskRect w h m).1 + (maskRect w h m).2.2 ≤ w ∧
    (maskRect w h m).2.1 + (maskRect w h m).2.2 ≤ h := by
  have hM1 : (1 : ℤ) ≤ min w h := le_min hw hh
  have hr : jsRound (((min w h * m.sizePercent : ℤ) : ℚ) / 100) ≤ min w h := by
    unfold jsRound
    rw [Int.floor_le_iff]
    have hmul : (min w h * m.sizePercent : ℤ) ≤ min w h * 45 :=
      mul_le_mul_of_nonneg_left hs45 (by omega)
    have hcast : ((min w h * m.sizePercent : ℤ) : ℚ) ≤ ((min w h * 45 : ℤ) : ℚ) := by
      exact_mod_cast hmul
    have hM1q : (1 : ℚ) ≤ ((min w h : ℤ) : ℚ) := by exact_mod_cast hM1
    push_cast at hcast hM1q ⊢
    linarith
  simp only [maskRect]
  unfold clamp
  omega

theorem pipelineStep_current_le {σ : Type} (p : EffectRuns σ) (e : PipelineEvent σ) :
    p.current ≤ (pipelineStep p e).current := by
  cases e with
  | newRun => simp [pipelineStep]
  | complete i f =>
    simp only [pipelineStep]
    split <;> simp

theorem runEvents_mono {σ : Type} (evs : List (PipelineEvent σ)) (p : EffectRuns σ) :
    p.current ≤ (runEvents p evs).current := by
  induction evs generalizing p with
  | nil => exact le_refl _
  | cons e r ih => exact le_trans (pipelineStep_current_le p e) (ih (pipelineStep p e))

theorem pipelineStep_stale {σ : Type} (p : EffectRuns σ) {i : ℕ} (h : ¬ i = p.current)
    (f : σ → σ) : pipelineStep p (PipelineEvent.complete i f) = p := by
  simp [pipelineStep, h]

theorem runEvents_append {σ : Type} (p : EffectRuns σ) (a b : List (PipelineEvent σ)) :
    runEvents p (a ++ b) = runEvents (runEvents p a) b := by
  unfold runEvents
  rw [List.foldl_append]

/-- C1: the claim states that missing or invalid numeric query parameters fall
back to the documented defaults (sizePercent 18, centerX 50, centerY 50,
opacity 100).  The code disagrees on missing parameters: URLSearchParams.get
returns null for them, ECMAScript ToNumber(null) is plus zero, which is
finite, so parseNumber clamps zero instead of using its fallback argument.
This theorem evaluates the decoder at the failing input (an empty query
string): every numeric field becomes clamp(0), giving mask options
(0, 0, 0, 10), not defaultMaskOptions, while the intent of the code
(the dead fallback arguments, the constant defaultMaskOptions and the
no-window branch of parsePermalinkState) clearly is the documented
defaults. -/
theorem parsePermalinkState_missing_params_bug :
    parsePermalinkState (String.mk []) =
      { text := "https://example.com", options := { errorLevel := ErrorLevel.M },
        maskOptions := { sizePercent := 0, centerXPercent := 0, centerYPercent := 0,
                         opacityPercent := 10 } } ∧
    (parsePermalinkState (String.mk [])).maskOptions ≠ defaultMaskOptions := by
  decide

/-- C2: for every in-range PermalinkState, decoding the query string produced
by encoding the state returns the same state, for any pathname of the page. -/
theorem permalink_decode_encode_roundtrip (pathname text : String) (lvl : ErrorLevel)
    (m : MaskOptions) (hm : MaskInRange m) :
    parsePermalinkState (createPermalink pathname text { errorLevel := lvl } m) =
      { text := text, options := { errorLevel := lvl }, maskOptions := m } :=
  parse_create_roundtrip pathname text lvl m hm

/-- Witness for C2 at a concrete in-range state with whitespace in the text. -/
theorem permalink_decode_encode_roundtrip_witness :
    MaskInRange defaultMaskOptions ∧
    parsePermalinkState (createPermalink ("/") (" a b ") { errorLevel := ErrorLevel.L }
        defaultMaskOptions) =
      { text := " a b ", options := { errorLevel := ErrorLevel.L },
        maskOptions := defaultMaskOptions } :=
  ⟨by decide,
   permalink_decode_encode_roundtrip ("/") (" a b ") ErrorLevel.L defaultMaskOptions
     (by decide)⟩

/-- C3 counterexample: the claim states that after an encode failure no decode
status is shown.  In the code the catch handler sets the decode status to
failed, and the status line is rendered whenever the status differs from
untested, so the status is shown. -/
theorem encode_failure_shows_decode_status :
    (encodeEffectResolve (Except.error ()) sampleAppState).decodeStatus ≠
      DecodeStatus.untested ∧
    showsDecodeStatus (encodeEffectResolve (Except.error ()) sampleAppState) = true := by
  decide

/-- C3 as amended: whenever the encoding step fails, the pipeline converts the
failure into the single advisory message, clears the base and the masked
image, and sets the decode status to failed (which the page renders as
unreadable); the handler is a total state update, never fatal to the
session. -/
theorem encode_failure_resets_state (st : AppState) :
    encodeEffectResolve (Except.error ()) st =
      { qrDataUrl := String.mk [], maskedDataUrl := String.mk [],
        decodeStatus := DecodeStatus.failed, errorMessage := encodeFailureMessage } :=
  rfl

/-- C4: the verification classifier returns untested exactly on empty trimmed
input, success exactly when the decoded text equals the trimmed input, and
failed in every other case, including a missing decode result. -/
theorem classifyDecode_spec (text : String) (decoded : Option String) :
    (jsTrim text = String.mk [] → classifyDecode text decoded = DecodeStatus.untested) ∧
    (jsTrim text ≠ String.mk [] →
      (classifyDecode text decoded = DecodeStatus.success ↔ decoded = some (jsTrim text))) ∧
    (jsTrim text ≠ String.mk [] ∧ decoded ≠ some (jsTrim text) →
      classifyDecode text decoded = DecodeStatus.failed) := by
  have hcd : classifyDecode text decoded =
      (if jsTrim text = String.mk [] then DecodeStatus.untested
       else if Option.getD decoded (String.mk []) = jsTrim text then DecodeStatus.success
       else DecodeStatus.failed) := rfl
  rw [hcd]
  refine ⟨?_, ?_, ?_⟩
  · intro h
    rw [if_pos h]
  · intro h
    rw [if_neg h]
    by_cases hd : Option.getD decoded (String.mk []) = jsTrim text
    · rw [if_pos hd]
      constructor
      · intro _
        cases decoded with
        | none => exact absurd hd.symm h
        | some d => exact congrArg some hd
      · intro _
        rfl
    · rw [if_neg hd]
      constructor
      · intro hh
        exact absurd hh (by decide)
      · intro hh
        exfalso
        rw [hh] at hd
        exact hd rfl
  · rintro ⟨h, hd⟩
    have hgd : ¬ Option.getD decoded (String.mk []) = jsTrim text := by
      cases decoded with
      | none => exact fun hh => h hh.symm
      | some d => exact fun hh => hd (congrArg some hh)
    rw [if_neg h, if_neg hgd]

/-- Witness for C4 at concrete text and decode result. -/
theorem classifyDecode_spec_witness :
    (jsTrim ("hi") ≠ String.mk []) ∧
    classifyDecode ("hi") (some ("hi")) = DecodeStatus.success :=
  ⟨by decide,
   ((classifyDecode_spec ("hi") (some ("hi"))).2.1 (by decide)).mpr (by decide)⟩

/-- C5: for a positive image and in-range mask options with positive size, the
painted square of the mask compositor has side at least one and lies fully
inside the canvas: x and y are nonnegative and x plus side and y plus side do
not exceed the width and the height. -/
theorem maskRect_inside_canvas {w h : ℤ} {m : MaskOptions} (hw : 0 < w) (hh : 0 < h)
    (hs : 0 < m.sizePercent) (hm : MaskInRange m) :
    1 ≤ (maskRect w h m).2.2 ∧
    0 ≤ (maskRect w h m).1 ∧ 0 ≤ (maskRect w h m).2.1 ∧
    (maskRect w h m).1 + (maskRect w h m).2.2 ≤ w ∧
    (maskRect w h m).2.1 + (maskRect w h m).2.2 ≤ h := by
  have hb := @maskRect_bounds w h m (by omega) (by omega) hs hm.2.1
  exact ⟨hb.1, hb.2.2.1, hb.2.2.2.1, hb.2.2.2.2.1, hb.2.2.2.2.2⟩

/-- Witness for C5 at the default 320 by 320 canvas and default mask. -/
theorem maskRect_inside_canvas_witness :
    ((0 : ℤ) < 320 ∧ (0 : ℤ) < 320 ∧
      (0 : ℤ) < defaultMaskOptions.sizePercent ∧ MaskInRange defaultMaskOptions) ∧
    (1 ≤ (maskRect 320 320 defaultMaskOptions).2.2 ∧
      0 ≤ (maskRect 320 320 defaultMaskOptions).1 ∧
      0 ≤ (maskRect 320 320 defaultMaskOptions).2.1 ∧
      (maskRect 320 320 defaultMaskOptions).1 + (maskRect 320 320 defaultMaskOptions).2.2 ≤ 320 ∧
      (maskRect 320 320 defaultMaskOptions).2.1 +
        (maskRect 320 320 defaultMaskOptions).2.2 ≤ 320) :=
  ⟨⟨by decide, by decide, by decide, by decide⟩,
   maskRect_inside_canvas (by decide) (by decide) (by decide) (by decide)⟩

/-- C6: with sizePercent zero the mask compositor mutates nothing: the
exported masked image of applyMaskAndTest is the base image itself, for every
decoder, image and text. -/
theorem applyMaskAndTest_size_zero_identity (decoder : Image → Option String)
    (img : Image) (text : String) (m : MaskOptions) (h : m.sizePercent = 0) :
    (applyMaskAndTest decoder img text m).maskedDataUrl = img := by
  show maskCanvas img m = img
  unfold maskCanvas
  rw [h]
  simp

/-- Witness for C6 at a concrete image, decoder and zero-size mask. -/
theorem applyMaskAndTest_size_zero_identity_witness :
    zeroSizeMask.sizePercent = 0 ∧
    (applyMaskAndTest sampleDecoder sampleImage ("x") zeroSizeMask).maskedDataUrl =
      sampleImage :=
  ⟨by decide,
   applyMaskAndTest_size_zero_identity sampleDecoder sampleImage ("x") zeroSizeMask
     (by decide)⟩

/-- C7: once a run of an asynchronous stage has been superseded (its index is
below the current one after some prefix of events), its completion commits
nothing, no matter how many further events happen before it arrives and what
follows it: the event can be dropped from the trace without changing the
outcome.  This is the active-flag check before every state update in both
effects of App.tsx. -/
theorem stale_completion_never_commits {σ : Type} (p : EffectRuns σ)
    (pre1 pre2 post : List (PipelineEvent σ)) (i : ℕ) (f : σ → σ)
    (h : i < (runEvents p pre1).current) :
    runEvents (runEvents p (pre1 ++ pre2)) (PipelineEvent.complete i f :: post) =
      runEvents (runEvents p (pre1 ++ pre2)) post := by
  have hmono : (runEvents p pre1).current ≤ (runEvents p (pre1 ++ pre2)).current := by
    rw [runEvents_append]
    exact runEvents_mono pre2 _
  show runEvents (pipelineStep (runEvents p (pre1 ++ pre2))
    (PipelineEvent.complete i f)) post = _
  rw [pipelineStep_stale _ (by omega) f]

/-- Witness for C7: a single superseded run completing late changes nothing. -/
theorem stale_completion_never_commits_witness :
    0 < (runEvents (EffectRuns.mk 0 (0 : ℕ)) [PipelineEvent.newRun]).current ∧
    runEvents (runEvents (EffectRuns.mk 0 (0 : ℕ)) ([PipelineEvent.newRun] ++ []))
        (PipelineEvent.complete 0 (fun _ => 99) :: []) =
      runEvents (runEvents (EffectRuns.mk 0 (0 : ℕ)) ([PipelineEvent.newRun] ++ [])) [] :=
  ⟨by decide,
   stale_completion_never_commits (EffectRuns.mk 0 (0 : ℕ)) [PipelineEvent.newRun] [] []
     0 (fun _ => 99) (by decide)⟩

/-- C8: the scenario query string decodes to the expected state and encoding
that state reproduces the same query string, for any page pathname. -/
theorem scenario_d_roundtrip (pathname : String) :
    parsePermalinkState ("?t=hi&e=Q&ms=10&mx=50&my=50&mo=50") =
      { text := "hi", options := { errorLevel := ErrorLevel.Q },
        maskOptions := scenarioDMask } ∧
    createPermalink pathname ("hi") { errorLevel := ErrorLevel.Q } scenarioDMask =
      "?t=hi&e=Q&ms=10&mx=50&my=50&mo=50" := by
  constructor
  · decide
  · simp only [createPermalink]
    rw [if_neg (serializeParams_cons_ne_empty _ _)]
    decide

/-- C9: for every query string the four decoded mask fields are integers
inside their documented ranges (the embedding types them as integers because
parseNumber always rounds), and every finite coercion result is rounded to
the nearest integer, half away up, before clamping. -/
theorem parsed_mask_always_in_range :
    (∀ search : String, MaskInRange (parsePermalinkState search).maskOptions) ∧
    (∀ (v : Option String) (f : Frac) (fb lo hi : ℤ), jsToNumber v = JsNum.finite f →
      parseNumber v fb lo hi = clamp ⌊f.toRat + 1 / 2⌋ lo hi) := by
  constructor
  · intro search
    simp only [parsePermalinkState]
    exact ⟨(parseNumber_range _ (by decide) (by decide)).1,
           (parseNumber_range _ (by decide) (by decide)).2,
           (parseNumber_range _ (by decide) (by decide)).1,
           (parseNumber_range _ (by decide) (by decide)).2,
           (parseNumber_range _ (by decide) (by decide)).1,
           (parseNumber_range _ (by decide) (by decide)).2,
           (parseNumber_range _ (by decide) (by decide)).1,
           (parseNumber_range _ (by decide) (by decide)).2⟩
  · intro v f fb lo hi hv
    unfold parseNumber
    rw [hv]
    show clamp (jsRoundFrac f) lo hi = clamp ⌊f.toRat + 1 / 2⌋ lo hi
    rw [jsRoundFrac_eq_floor (jsToNumber_den_pos hv)]

/-- Witness for C9 at a concrete query string and a concrete finite value. -/
theorem parsed_mask_always_in_range_witness :
    MaskInRange (parsePermalinkState ("?ms=7")).maskOptions ∧
    (jsToNumber (some ("7")) = JsNum.finite { num := 7, den := 1 } ∧
      parseNumber (some ("7")) 18 0 45 =
        clamp ⌊({ num := 7, den := 1 } : Frac).toRat + 1 / 2⌋ 0 45) :=
  ⟨parsed_mask_always_in_range.1 ("?ms=7"),
   by decide,
   parsed_mask_always_in_range.2 (some ("7")) { num := 7, den := 1 } 18 0 45 (by decide)⟩

/-- C10: for text with leading or trailing whitespace, the permalink encodes
and round-trips the raw untrimmed text under key t, while the encode effect
invokes the encoder with the trimmed text whenever the trimmed text is
nonempty, and the classifier accepts exactly the trimmed text as a successful
decode. -/
theorem raw_text_untrimmed_permalink_trimmed_encode (pathname text : String)
    (lvl : ErrorLevel) (m : MaskOptions) (st : AppState)
    (hw : jsTrim text ≠ text) (hm : MaskInRange m) :
    (parsePermalinkState (createPermalink pathname text { errorLevel := lvl } m)).text =
      text ∧
    (jsTrim text ≠ String.mk [] → (encodeEffectStart text st).2 = some (jsTrim text)) ∧
    (∀ d : String, classifyDecode text (some d) = DecodeStatus.success ↔
      (jsTrim text ≠ String.mk [] ∧ d = jsTrim text)) := by
  refine ⟨?_, ?_, ?_⟩
  · rw [parse_create_roundtrip pathname text lvl m hm]
  · intro h
    unfold encodeEffectStart
    rw [if_neg h]
  · intro d
    have hcd : classifyDecode text (some d) =
        (if jsTrim text = String.mk [] then DecodeStatus.untested
         else if d = jsTrim text then DecodeStatus.success
         else DecodeStatus.failed) := rfl
    rw [hcd]
    by_cases h : jsTrim text = String.mk []
    · rw [if_pos h]
      constructor
      · intro hh
        exact absurd hh (by decide)
      · rintro ⟨hne, _⟩
        exact absurd h hne
    · rw [if_neg h]
      by_cases hd : d = jsTrim text
      · rw [if_pos hd]
        exact ⟨fun _ => ⟨h, hd⟩, fun _ => rfl⟩
      · rw [if_neg hd]
        constructor
        · intro hh
          exact absurd hh (by decide)
        · rintro ⟨_, hdd⟩
          exact absurd hdd hd

/-- Witness for C10 at concrete whitespace-wrapped text. -/
theorem raw_text_untrimmed_permalink_trimmed_encode_witness :
    (jsTrim (" hi ") ≠ " hi " ∧ MaskInRange defaultMaskOptions) ∧
    ((parsePermalinkState (createPermalink ("/") (" hi ") { errorLevel := ErrorLevel.M }
        defaultMaskOptions)).text = " hi " ∧
      (jsTrim (" hi ") ≠ String.mk [] →
        (encodeEffectStart (" hi ") sampleAppState).2 = some (jsTrim (" hi "))) ∧
      (∀ d : String, classifyDecode (" hi ") (some d) = DecodeStatus.success ↔
        (jsTrim (" hi ") ≠ String.mk [] ∧ d = jsTrim (" hi ")))) :=
  ⟨⟨by decide, by decide⟩,
   raw_text_untrimmed_permalink_trimmed_encode ("/") (" hi ") ErrorLevel.M
     defaultMaskOptions sampleAppState (by decide) (by decide)⟩
